import Mathlib

/-!
# Verification of the smart-bookmarks enrichment pipeline

A shallow embedding of the bookmark data model (`app/models`), the
bookmark CRUD routes (`app/api/routes/bookmarks.py`), the AI enrichment
job (`app/tasks/ai_tasks.py`, `process_bookmark_content`) and the content
cleaner (`app/services/content_processor.py`, `extract_clean_content`),
together with theorems about the status lifecycle, failure isolation,
idempotence, tag reconciliation, deletion cascade and the job's frame
of effect.

Machine conventions: database tables are Lean lists of rows; the SQL
autoincrement id for tags is an explicit `nextTagId` counter; SQLAlchemy
session autoflush is modelled by making every pending insert visible to
later lookups in the same transaction; Python string slicing `s[:n]` is
`pyTake`; timestamps are abstract naturals.
-/

namespace SmartBookmarks

/-- The enumeration `ProcessingStatus` from `app/models/bookmark.py`: the five-valued
status enumeration for AI content processing. -/
inductive ProcessingStatus where
  | pending
  | processing
  | completed
  | failed
  | skipped
deriving DecidableEq, Repr

/-- A row of the `bookmarks` table (`Bookmark` in `app/models/bookmark.py`). -/
structure BookmarkRow where
  id : Nat
  user_id : Nat
  url : String
  title : String
  description : Option String
  is_favorite : Bool
  views_count : Nat
  ai_enabled : Bool
  ai_status : ProcessingStatus
  ai_error : Option String
  created_at : Nat
  updated_at : Nat
deriving DecidableEq, Repr

/-- A row of the `tags` table (`Tag` in `app/models/tag.py`). -/
structure TagRow where
  id : Nat
  name : String
deriving DecidableEq, Repr

/-- A row of the `bookmark_tags` link table (`BookmarkTag` in
`app/models/bookmark_tag.py`). -/
structure BookmarkTagRow where
  bookmark_id : Nat
  tag_id : Nat
deriving DecidableEq, Repr

/-- The shared relational store: the three tables plus the tag
autoincrement counter. -/
structure DB where
  bookmarks : List BookmarkRow
  tags : List TagRow
  links : List BookmarkTagRow
  nextTagId : Nat
deriving DecidableEq, Repr

/-- Python string slicing `s[:n]`: the first `n` characters. -/
def pyTake (s : String) (n : Nat) : String :=
  ⟨s.data.take n⟩

/-- Python `str.lower()` (on the ASCII names at play): lowercase each
character. -/
def pyLower (s : String) : String :=
  ⟨s.data.map Char.toLower⟩

/-- Models `session.get(Bookmark, bookmark_id)`: primary-key lookup. -/
def lookupBookmark (db : DB) (bid : Nat) : Option BookmarkRow :=
  db.bookmarks.find? (fun b => b.id == bid)

/-- Apply an update function to the row with primary key `bid`
(SQLAlchemy attribute assignment on a loaded row, flushed on commit). -/
def updateRow (db : DB) (bid : Nat) (f : BookmarkRow → BookmarkRow) : DB :=
  { db with bookmarks := db.bookmarks.map (fun b => if b.id == bid then f b else b) }

/-- Models `select(Tag).where(Tag.name == name) ... .first()`. -/
def findTag (tags : List TagRow) (name : String) : Option TagRow :=
  tags.find? (fun t => t.name == name)

/-- The part of the store read and written by tag reconciliation:
the `tags` table, the `bookmark_tags` table and the tag id counter. -/
structure TagDB where
  tags : List TagRow
  links : List BookmarkTagRow
  nextTagId : Nat
deriving DecidableEq, Repr

/-- One iteration of the tag loop in `process_bookmark_content`
(`app/tasks/ai_tasks.py` lines 44-48): look the name up verbatim,
create a `Tag` with the verbatim name when absent, and append the
association.  Session autoflush makes a tag created for an earlier
name of the same list visible to this lookup. -/
def addTagLinkT (t : TagDB) (bid : Nat) (name : String) : TagDB :=
  match findTag t.tags name with
  | some tg => { t with links := t.links ++ [⟨bid, tg.id⟩] }
  | none =>
      { tags := t.tags ++ [⟨t.nextTagId, name⟩],
        links := t.links ++ [⟨bid, t.nextTagId⟩],
        nextTagId := t.nextTagId + 1 }

/-- Models `bookmark.tags.clear()`: detach every tag association of this
bookmark (removes its `bookmark_tags` rows; `cascade "all, delete"`
without `delete-orphan` does not delete the `Tag` rows on detach). -/
def clearTagsT (t : TagDB) (bid : Nat) : TagDB :=
  { t with links := t.links.filter (fun l => l.bookmark_id ≠ bid) }

/-- The lookup-or-create loop over a list of names. -/
def addTagsT (t : TagDB) (bid : Nat) (names : List String) : TagDB :=
  names.foldl (fun s n => addTagLinkT s bid n) t

/-- The AI path's tag reconciliation: `bookmark.tags.clear()` followed
by the lookup-or-create loop over the generated names. -/
def reconcileTagsT (t : TagDB) (bid : Nat) (names : List String) : TagDB :=
  addTagsT (clearTagsT t bid) bid names

/-- The tag-reconciliation view of the full store. -/
def DB.tagdb (db : DB) : TagDB :=
  ⟨db.tags, db.links, db.nextTagId⟩

/-- Write a tag-reconciliation view back into the store. -/
def DB.withTagdb (db : DB) (t : TagDB) : DB :=
  { db with tags := t.tags, links := t.links, nextTagId := t.nextTagId }

/-- The operation `addTagLinkT` on the full store. -/
def addTagLink (db : DB) (bid : Nat) (name : String) : DB :=
  db.withTagdb (addTagLinkT db.tagdb bid name)

/-- The operation `clearTagsT` on the full store. -/
def clearTags (db : DB) (bid : Nat) : DB :=
  db.withTagdb (clearTagsT db.tagdb bid)

/-- The AI path's tag reconciliation on the full store. -/
def reconcileTags (db : DB) (bid : Nat) (names : List String) : DB :=
  db.withTagdb (reconcileTagsT db.tagdb bid names)

/-- One iteration of the manual tag loop in `create_bookmark` and
`update_bookmark` (`app/api/routes/bookmarks.py`): the name is
lowercased before the lookup and before the create. -/
def manualAddTag (db : DB) (bid : Nat) (name : String) : DB :=
  addTagLink db bid (pyLower name)

/-- The composite primary key of `bookmark_tags` (`bookmark_tag.py`
lines 11-14): a link-table state is storable at commit only if no
`(bookmark_id, tag_id)` pair occurs twice.  The `links` field of the
model records association rows in the order the session stages them;
a state failing this check is rejected by the source's commit with a
FlushError/IntegrityError instead of being persisted. -/
def pairwiseDistinct : List BookmarkTagRow → Bool
  | [] => true
  | l :: rest => !rest.contains l && pairwiseDistinct rest

/-- Outcomes of the five pipeline stages of `ContentProcessor`
(`app/services/content_processor.py`) as seen by the orchestrator:
each fallible stage either returns a value or raises an exception
carrying a message (`except Exception as e` in the task catches all
of them).  `extract_title` never raises (it catches internally and
falls back to a literal), so it is a total function. -/
structure StageOutputs where
  extract_clean_content : String → Except String String
  extract_title : String → String
  html_to_markdown : String → Except String String
  generate_summary : String → Except String String
  generate_tags : String → Except String (List String)

/-- Events observable at the store / network boundary of one job:
a committed store snapshot, or an outbound stage call. -/
inductive Event where
  | commit (db : DB)
  | extCall (stage : String)
deriving DecidableEq, Repr

/-- The five sequential stage invocations inside the `try` block of
`process_bookmark_content` (lines 35-39): each stage runs only if all
previous ones succeeded; the first raise aborts the rest.  Returns the
pipeline result together with the list of stage calls actually made. -/
def runPipeline (st : StageOutputs) (url : String) :
    Except String (String × String × List String) × List Event :=
  match st.extract_clean_content url with
  | .error e => (.error e, [.extCall "fetch"])
  | .ok html =>
    let title := st.extract_title html
    match st.html_to_markdown html with
    | .error e => (.error e, [.extCall "fetch", .extCall "markdown"])
    | .ok markdown =>
      match st.generate_summary markdown with
      | .error e => (.error e, [.extCall "fetch", .extCall "markdown", .extCall "summary"])
      | .ok summary =>
        match st.generate_tags markdown with
        | .error e =>
            (.error e,
             [.extCall "fetch", .extCall "markdown", .extCall "summary", .extCall "tags"])
        | .ok tag_names =>
            (.ok (title, summary, tag_names),
             [.extCall "fetch", .extCall "markdown", .extCall "summary", .extCall "tags"])

/-- The placeholder description written on enrichment failure
(`app/tasks/ai_tasks.py` line 64). -/
def failedDescription : String :=
  "AI processing failed. Could not generate summary."

/-- Models `process_bookmark_content` (`app/tasks/ai_tasks.py`): the enrichment
job for one bookmark id.  Returns the final store together with the
ordered trace of commits and stage calls.  Mirrors the source: load the
bookmark and exit silently when missing or not AI-enabled; set
`PROCESSING` and commit; run the five stages inside `try`; on success
write title, summary, reconciled tags, `COMPLETED` and clear `ai_error`;
on any stage exception write `FAILED`, the truncated message `str(e)[:499]`
and the placeholder description; commit once at the end. -/
def process_bookmark_content (db : DB) (bid : Nat) (st : StageOutputs) :
    DB × List Event :=
  match lookupBookmark db bid with
  | none => (db, [])
  | some b =>
    if b.ai_enabled = false then (db, [])
    else
      let db1 := updateRow db bid (fun x => { x with ai_status := .processing })
      let (res, calls) := runPipeline st b.url
      match res with
      | .ok (title, summary, tag_names) =>
        let db2 := updateRow db1 bid
          (fun x => { x with title := title, description := some summary })
        let db3 := reconcileTags db2 bid tag_names
        let db4 := updateRow db3 bid
          (fun x => { x with ai_status := .completed, ai_error := none })
        (db4, .commit db1 :: calls ++ [.commit db4])
      | .error e =>
        let db2 := updateRow db1 bid
          (fun x => { x with
              ai_status := .failed,
              ai_error := some (pyTake e 499),
              description := some failedDescription })
        (db2, .commit db1 :: calls ++ [.commit db2])

/-- The schema `BookmarkCreate` (`app/models/bookmark.py`): the request payload for
bookmark creation. -/
structure BookmarkCreate where
  url : String
  title : String
  description : Option String
  is_favorite : Bool
  views_count : Nat
  ai_enabled : Bool
  tags : List String
deriving DecidableEq, Repr

/-- Models `create_bookmark` (`app/api/routes/bookmarks.py`): insert the row
with `ai_status = PENDING if ai_enabled else SKIPPED`; when AI is
disabled and tags were supplied, run the manual lowercase
lookup-or-create loop over `set(tags)` (modelled as first-occurrence
deduplication of the raw names); when AI is enabled, enqueue the job —
`queueOk = false` models `.delay(...)` raising, in which case the route
writes `ai_status = FAILED` and a fixed `ai_error`.  Returns the store
and the row backing the response.  `newBookmarkRow` is the freshly
inserted row. -/
def newBookmarkRow (uid nid now : Nat) (inp : BookmarkCreate) : BookmarkRow :=
  { id := nid, user_id := uid, url := inp.url, title := inp.title,
    description := inp.description, is_favorite := inp.is_favorite,
    views_count := inp.views_count, ai_enabled := inp.ai_enabled,
    ai_status := if inp.ai_enabled then .pending else .skipped,
    ai_error := none, created_at := now, updated_at := now }

def create_bookmark (db : DB) (uid : Nat) (newId : Nat) (now : Nat)
    (inp : BookmarkCreate) (queueOk : Bool) : DB × BookmarkRow :=
  let b0 : BookmarkRow := newBookmarkRow uid newId now inp
  let db1 : DB := { db with bookmarks := db.bookmarks ++ [b0] }
  let db2 : DB :=
    if inp.ai_enabled = false ∧ inp.tags ≠ [] then
      inp.tags.eraseDups.foldl (fun d n => manualAddTag d newId n) db1
    else db1
  if inp.ai_enabled ∧ queueOk = false then
    let b1 := { b0 with ai_status := .failed,
                        ai_error := some "Failed to queue processing task." }
    (updateRow db2 newId (fun x => { x with
        ai_status := .failed,
        ai_error := some "Failed to queue processing task." }), b1)
  else (db2, b0)

/-- The schema `BookmarkUpdate` (`app/models/bookmark.py`): every field optional;
`ai_status` and `ai_error` are not part of the update schema. -/
structure BookmarkUpdate where
  url : Option String
  title : Option String
  description : Option String
  is_favorite : Option Bool
  tags : Option (List String)
deriving DecidableEq, Repr

/-- Models `update_bookmark` (`app/api/routes/bookmarks.py`): replace the tag
associations when a tag list was supplied (delete the bookmark's
`BookmarkTag` rows, then run the manual lowercase loop), set the
supplied scalar fields, and bump `updated_at`. -/
def update_bookmark (db : DB) (bid : Nat) (upd : BookmarkUpdate) (now : Nat) : DB :=
  match lookupBookmark db bid with
  | none => db
  | some _ =>
    let db1 :=
      match upd.tags with
      | some newTags => newTags.foldl (fun d n => manualAddTag d bid n) (clearTags db bid)
      | none => db
    updateRow db1 bid (fun b =>
      { b with
          url := upd.url.getD b.url,
          title := upd.title.getD b.title,
          description := match upd.description with
            | some d => some d
            | none => b.description,
          is_favorite := upd.is_favorite.getD b.is_favorite,
          updated_at := now })

/-- Tag ids reachable from a set of bookmark ids through the link
table, and bookmark ids reachable from a set of tag ids: one step of
SQLAlchemy's recursive `cascade="all, delete"` traversal, which is
configured on both sides of the `Bookmark.tags` / `Tag.bookmarks`
many-to-many relationship (`app/models/bookmark.py`, `app/models/tag.py`). -/
def cascadeStep (links : List BookmarkTagRow) (p : List Nat × List Nat) :
    List Nat × List Nat :=
  let bs := p.1
  let ts := p.2
  let ts' := ts ++ ((links.filter (fun l => bs.contains l.bookmark_id)).map
      (fun l => l.tag_id)).filter (fun t => ts.contains t = false)
  let bs' := bs ++ ((links.filter (fun l => ts'.contains l.tag_id)).map
      (fun l => l.bookmark_id)).filter (fun b => bs.contains b = false)
  (bs', ts')

/-- The transitive closure of the delete cascade starting from one
bookmark: iterating `cascadeStep` to a fixpoint (the fuel bounds the
iteration; `2 * links.length + 2` steps always reach the fixpoint). -/
def cascadeClosure (links : List BookmarkTagRow) : Nat → List Nat × List Nat → List Nat × List Nat
  | 0, p => p
  | fuel + 1, p => cascadeClosure links fuel (cascadeStep links p)

/-- Models `delete_bookmark` (`app/api/routes/bookmarks.py`): `db.delete(bookmark)`
under the model's `cascade="all, delete"` many-to-many relationship —
the ORM deletes the bookmark, its link rows, the `Tag` objects related
to it, and recursively the objects related to those. -/
def delete_bookmark (db : DB) (bid : Nat) : DB :=
  match lookupBookmark db bid with
  | none => db
  | some _ =>
    let closure := cascadeClosure db.links (2 * db.links.length + 2) ([bid], [])
    let bs := closure.1
    let ts := closure.2
    { db with
        bookmarks := db.bookmarks.filter (fun b => bs.contains b.id = false),
        tags := db.tags.filter (fun t => ts.contains t.id = false),
        links := db.links.filter (fun l =>
          bs.contains l.bookmark_id = false ∧ ts.contains l.tag_id = false) }

/-- A parsed HTML element tree, as BeautifulSoup presents it to
`ContentProcessor.extract_clean_content`: an element carries its tag
name (lowercased by the html parser), its `id` and `class` attribute
text, and its children. -/
inductive HtmlNode where
  | text (s : String)
  | elem (tag : String) (idAttr : String) (classAttr : String) (children : List HtmlNode)

/-- Whether `pat` matches at the head of `s`. -/
def matchAt : List Char → List Char → Bool
  | _, [] => true
  | [], _ :: _ => false
  | c :: cs, p :: ps => c == p && matchAt cs ps

/-- Whether `pat` occurs anywhere in `s`. -/
def hasSubAux : List Char → List Char → Bool
  | [], pat => pat.isEmpty
  | c :: cs, pat => matchAt (c :: cs) pat || hasSubAux cs pat

/-- Whether `pat` occurs as a substring of `s`. -/
def containsSub (s pat : String) : Bool :=
  hasSubAux s.data pat.data

/-- The boilerplate words of the regex
`.*(footer|header|navigation|nav|sidebar|menu).*` compiled with `re.I`
in `extract_clean_content`. -/
def boilerplateWords : List String :=
  ["footer", "header", "navigation", "nav", "sidebar", "menu"]

/-- The fixed tag-name list removed by `extract_clean_content`. -/
def staticRemoveTags : List String :=
  ["script", "style", "noscript", "iframe", "aside"]

/-- In `soup.find_all(name=boilerplate_re)` BeautifulSoup matches the compiled regex
against an element's **tag name** (case-insensitively, unanchored), so
an element is collected when its tag name contains one of the words. -/
def matchesBoilerplate (tag : String) : Bool :=
  boilerplateWords.any (fun w => containsSub (pyLower tag) w)

/-- An element is decomposed by `extract_clean_content` exactly when
its tag name matches the boilerplate regex or is one of the static
tag names.  The element's `id` and `class` attributes are not
consulted. -/
def removedByCleaner (tag : String) : Bool :=
  matchesBoilerplate tag || staticRemoveTags.contains tag

/-- The job's first write: `bookmark.ai_status = ProcessingStatus.PROCESSING`. -/
def setProcessing (x : BookmarkRow) : BookmarkRow :=
  { x with ai_status := .processing }

/-- The combined effect of the job's success-path writes on the
bookmark row: new title and summary, `COMPLETED`, `ai_error` cleared. -/
def applyOk (ti su : String) (x : BookmarkRow) : BookmarkRow :=
  { x with title := ti, description := some su,
           ai_status := .completed, ai_error := none }

/-- The combined effect of the job's failure-path writes on the
bookmark row: `FAILED`, the truncated message, the placeholder
description. -/
def applyErr (e : String) (x : BookmarkRow) : BookmarkRow :=
  { x with ai_status := .failed, ai_error := some (pyTake e 499),
           description := some failedDescription }

/-- Whether an event is a committed snapshot in which bookmark `bid`
has status `PROCESSING`. -/
def commitsProcessing (bid : Nat) : Event → Bool
  | .commit d =>
      match lookupBookmark d bid with
      | some b => b.ai_status == .processing
      | none => false
  | .extCall _ => false

/-- The fields of a bookmark row that the enrichment job must leave
unchanged: everything except `title`, `description`, `ai_status` and
`ai_error`. -/
def frameEq (b b' : BookmarkRow) : Prop :=
  b'.id = b.id ∧ b'.user_id = b.user_id ∧ b'.url = b.url ∧
  b'.is_favorite = b.is_favorite ∧ b'.views_count = b.views_count ∧
  b'.ai_enabled = b.ai_enabled ∧ b'.created_at = b.created_at ∧
  b'.updated_at = b.updated_at

mutual

/-- The cleaning pass of `ContentProcessor.extract_clean_content`
(`app/services/content_processor.py` lines 30-39) on one node:
a matched element is decomposed together with its whole subtree,
everything else is kept with cleaned children. -/
def cleanNode : HtmlNode → List HtmlNode
  | .text s => [.text s]
  | .elem tag idAttr classAttr children =>
      if removedByCleaner tag then []
      else [.elem tag idAttr classAttr (cleanForest children)]

/-- The cleaning pass on a list of sibling nodes. -/
def cleanForest : List HtmlNode → List HtmlNode
  | [] => []
  | n :: rest => cleanNode n ++ cleanForest rest

end

mutual

/-- No element of this tree has a tag name the cleaner removes. -/
def noRemoved : HtmlNode → Bool
  | .text _ => true
  | .elem tag _ _ children => !removedByCleaner tag && noRemovedForest children

/-- No element of these trees has a tag name the cleaner removes. -/
def noRemovedForest : List HtmlNode → Bool
  | [] => true
  | n :: rest => noRemoved n && noRemovedForest rest

end

/-! Concrete instances used by witnesses and counterexamples. -/

/-- A concrete AI-enabled bookmark row. -/
def bkC : BookmarkRow :=
  { id := 1, user_id := 7, url := "https://example.com", title := "Old title",
    description := none, is_favorite := false, views_count := 0,
    ai_enabled := true, ai_status := .pending, ai_error := none,
    created_at := 5, updated_at := 5 }

/-- A concrete store holding `bkC` and one tag named `"python"`. -/
def dbC : DB :=
  { bookmarks := [bkC], tags := [⟨1, "python"⟩], links := [], nextTagId := 2 }

/-- A concrete store with a second bookmark sharing the `"python"` tag
with the first. -/
def dbShared : DB :=
  { bookmarks := [bkC, { bkC with id := 2, user_id := 8 }],
    tags := [⟨1, "python"⟩],
    links := [⟨1, 1⟩, ⟨2, 1⟩],
    nextTagId := 2 }

/-- Concrete stage outputs in which every stage succeeds. -/
def stOkC : StageOutputs :=
  { extract_clean_content := fun _ => .ok "<html>",
    extract_title := fun _ => "Mocked Title",
    html_to_markdown := fun _ => .ok "markdown",
    generate_summary := fun _ => .ok "Mocked AI summary.",
    generate_tags := fun _ => .ok ["mocked", "ai", "tag"] }

/-- Concrete stage outputs in which the fetch raises with message `"boom"`. -/
def stFailC : StageOutputs :=
  { stOkC with extract_clean_content := fun _ => .error "boom" }

/-- Concrete stage outputs in which the fetch raises an exception whose
`str(e)` is the empty string (for example Python's `raise Exception()`). -/
def stFailEmptyC : StageOutputs :=
  { stOkC with extract_clean_content := fun _ => .error "" }

/-- A concrete creation payload with AI enabled and no tags. -/
def inpAiC : BookmarkCreate :=
  { url := "https://x.com", title := "t", description := none,
    is_favorite := false, views_count := 0, ai_enabled := true, tags := [] }

/-- A concrete creation payload with AI disabled and no tags. -/
def inpPlainC : BookmarkCreate :=
  { url := "https://x.com", title := "t", description := none,
    is_favorite := false, views_count := 0, ai_enabled := false, tags := [] }

/-- A concrete store whose only bookmark has AI disabled. -/
def dbSkippedC : DB :=
  { bookmarks := [{ bkC with ai_enabled := false, ai_status := .skipped }],
    tags := [⟨1, "python"⟩], links := [], nextTagId := 2 }

/-! ## Structural lemmas about the store operations -/

theorem withTagdb_bookmarks (db : DB) (t : TagDB) :
    (db.withTagdb t).bookmarks = db.bookmarks := rfl

theorem tagdb_withTagdb (db : DB) (t : TagDB) :
    (db.withTagdb t).tagdb = t := rfl

theorem withTagdb_withTagdb (db : DB) (t t' : TagDB) :
    ((db.withTagdb t).withTagdb t') = db.withTagdb t' := rfl

theorem lookup_withTagdb (db : DB) (t : TagDB) (bid : Nat) :
    lookupBookmark (db.withTagdb t) bid = lookupBookmark db bid := rfl

theorem updateRow_withTagdb (db : DB) (t : TagDB) (bid : Nat) (f : BookmarkRow → BookmarkRow) :
    updateRow (db.withTagdb t) bid f = (updateRow db bid f).withTagdb t := rfl

theorem tagdb_updateRow (db : DB) (bid : Nat) (f : BookmarkRow → BookmarkRow) :
    (updateRow db bid f).tagdb = db.tagdb := rfl

theorem tags_withTagdb (db : DB) (t : TagDB) : (db.withTagdb t).tags = t.tags := rfl

theorem links_withTagdb (db : DB) (t : TagDB) : (db.withTagdb t).links = t.links := rfl

theorem find?_map_if (l : List BookmarkRow) (bid : Nat) (f : BookmarkRow → BookmarkRow)
    (hf : ∀ b, (f b).id = b.id) :
    (l.map (fun b => if b.id == bid then f b else b)).find? (fun b => b.id == bid)
      = (l.find? (fun b => b.id == bid)).map f := by
  induction l with
  | nil => rfl
  | cons b rest ih =>
    by_cases hb : b.id = bid
    · simp [List.find?, hb, hf]
    · have hbeq : (b.id == bid) = false := by simpa using hb
      simp only [List.map_cons, hbeq, Bool.false_eq_true, if_false,
        List.find?_cons, ih]

theorem lookup_updateRow (db : DB) (bid : Nat) (f : BookmarkRow → BookmarkRow)
    (hf : ∀ b, (f b).id = b.id) :
    lookupBookmark (updateRow db bid f) bid = (lookupBookmark db bid).map f := by
  unfold lookupBookmark updateRow
  exact find?_map_if db.bookmarks bid f hf

theorem updateRow_comp (db : DB) (bid : Nat) (f g : BookmarkRow → BookmarkRow)
    (hf : ∀ b, (f b).id = b.id) :
    updateRow (updateRow db bid f) bid g = updateRow db bid (fun b => g (f b)) := by
  unfold updateRow
  simp only [List.map_map]
  congr 1
  apply List.map_congr_left
  intro x _
  by_cases hx : x.id = bid
  · simp [Function.comp, hx, hf]
  · have hbeq : (x.id == bid) = false := by simpa using hx
    simp [Function.comp, hbeq]

theorem updateRow_congr (db : DB) (bid : Nat) (f g : BookmarkRow → BookmarkRow)
    (h : ∀ b, f b = g b) :
    updateRow db bid f = updateRow db bid g := by
  unfold updateRow
  congr 1
  apply List.map_congr_left
  intro x _
  by_cases hx : x.id = bid <;> simp [hx, h]

theorem updateRow_comp2 (db : DB) (bid : Nat) (f g k : BookmarkRow → BookmarkRow)
    (hf : ∀ b, (f b).id = b.id) (hk : ∀ b, g (f b) = k b) :
    updateRow (updateRow db bid f) bid g = updateRow db bid k := by
  rw [updateRow_comp db bid f g hf]
  exact updateRow_congr _ _ _ _ hk

theorem updateRow_comp3 (db : DB) (bid : Nat) (f g h k : BookmarkRow → BookmarkRow)
    (hf : ∀ b, (f b).id = b.id) (hg : ∀ b, (g (f b)).id = b.id)
    (hk : ∀ b, h (g (f b)) = k b) :
    updateRow (updateRow (updateRow db bid f) bid g) bid h = updateRow db bid k := by
  rw [updateRow_comp db bid f g hf]
  rw [updateRow_comp db bid (fun b => g (f b)) h hg]
  exact updateRow_congr _ _ _ _ hk

/-! ## Lemmas about tag reconciliation -/

theorem findTag_eq_some_name {tags : List TagRow} {n : String} {tg : TagRow}
    (h : findTag tags n = some tg) : tg.name = n ∧ tg ∈ tags := by
  unfold findTag at h
  refine ⟨?_, List.mem_of_find?_eq_some h⟩
  have := List.find?_some h
  simpa using this

theorem findTag_append_of_some {l1 l2 : List TagRow} {n : String} {tg : TagRow}
    (h : findTag l1 n = some tg) : findTag (l1 ++ l2) n = some tg := by
  unfold findTag at h ⊢
  rw [List.find?_append, h]
  rfl

theorem findTag_append_of_none {l1 l2 : List TagRow} {n : String}
    (h : findTag l1 n = none) : findTag (l1 ++ l2) n = findTag l2 n := by
  unfold findTag at h ⊢
  rw [List.find?_append, h]
  rfl

/-- The lookup-or-create loop only appends to the tag table, and every
appended tag carries one of the processed names. -/
theorem addTagsT_tags_ext (bid : Nat) (ns : List String) :
    ∀ t : TagDB, ∃ ex, (addTagsT t bid ns).tags = t.tags ++ ex ∧
      ∀ tg ∈ ex, tg.name ∈ ns := by
  induction ns with
  | nil => intro t; exact ⟨[], by simp [addTagsT]⟩
  | cons n ns ih =>
    intro t
    show ∃ ex, (addTagsT (addTagLinkT t bid n) bid ns).tags = t.tags ++ ex ∧ _
    obtain ⟨ex, hex, hnames⟩ := ih (addTagLinkT t bid n)
    unfold addTagLinkT at hex ⊢
    cases hf : findTag t.tags n with
    | some tg =>
      rw [hf] at hex
      exact ⟨ex, hex, fun x hx => List.mem_cons_of_mem n (hnames x hx)⟩
    | none =>
      rw [hf] at hex
      refine ⟨⟨t.nextTagId, n⟩ :: ex, by simpa using hex, ?_⟩
      intro x hx
      rcases List.mem_cons.1 hx with h | h
      · subst h; exact List.mem_cons_self n ns
      · exact List.mem_cons_of_mem n (hnames x h)

/-- The lookup-or-create loop only appends to the link table; every
appended link belongs to this bookmark and points at a tag of the final
tag table whose name is one of the processed names. -/
theorem addTagsT_links_ext (bid : Nat) (ns : List String) :
    ∀ t : TagDB, ∃ A, (addTagsT t bid ns).links = t.links ++ A ∧
      ∀ l ∈ A, l.bookmark_id = bid ∧
        ∃ tg ∈ (addTagsT t bid ns).tags, tg.id = l.tag_id ∧ tg.name ∈ ns := by
  induction ns with
  | nil => intro t; exact ⟨[], by simp [addTagsT]⟩
  | cons n ns ih =>
    intro t
    show ∃ A, (addTagsT (addTagLinkT t bid n) bid ns).links = t.links ++ A ∧ _
    obtain ⟨A, hA, hprops⟩ := ih (addTagLinkT t bid n)
    obtain ⟨ex, hex, _⟩ := addTagsT_tags_ext bid ns (addTagLinkT t bid n)
    cases hf : findTag t.tags n with
    | some tg =>
      obtain ⟨hname, hmem⟩ := findTag_eq_some_name hf
      have hlinks : (addTagLinkT t bid n).links = t.links ++ [⟨bid, tg.id⟩] := by
        unfold addTagLinkT; rw [hf]
      have htags : (addTagLinkT t bid n).tags = t.tags := by
        unfold addTagLinkT; rw [hf]
      rw [hlinks] at hA
      refine ⟨⟨bid, tg.id⟩ :: A, by simpa using hA, ?_⟩
      intro l hl
      rcases List.mem_cons.1 hl with h | h
      · subst h
        refine ⟨rfl, tg, ?_, rfl, by simp [hname]⟩
        show tg ∈ (addTagsT (addTagLinkT t bid n) bid ns).tags
        rw [hex, htags]
        exact List.mem_append_left _ hmem
      · obtain ⟨hb, tg', htg', hid, hn⟩ := hprops l h
        exact ⟨hb, tg', htg', hid, List.mem_cons_of_mem n hn⟩
    | none =>
      have hlinks : (addTagLinkT t bid n).links = t.links ++ [⟨bid, t.nextTagId⟩] := by
        unfold addTagLinkT; rw [hf]
      have htags : (addTagLinkT t bid n).tags = t.tags ++ [⟨t.nextTagId, n⟩] := by
        unfold addTagLinkT; rw [hf]
      rw [hlinks] at hA
      refine ⟨⟨bid, t.nextTagId⟩ :: A, by simpa using hA, ?_⟩
      intro l hl
      rcases List.mem_cons.1 hl with h | h
      · subst h
        refine ⟨rfl, ⟨t.nextTagId, n⟩, ?_, rfl, by simp⟩
        show (⟨t.nextTagId, n⟩ : TagRow) ∈ (addTagsT (addTagLinkT t bid n) bid ns).tags
        rw [hex, htags]
        exact List.mem_append_left _ (List.mem_append_right _ (List.mem_singleton.2 rfl))
      · obtain ⟨hb, tg', htg', hid, hn⟩ := hprops l h
        exact ⟨hb, tg', htg', hid, List.mem_cons_of_mem n hn⟩

theorem addTagLinkT_found {s : TagDB} {n : String} {tg : TagRow} (bid : Nat)
    (h : findTag s.tags n = some tg) :
    addTagLinkT s bid n = ⟨s.tags, s.links ++ [⟨bid, tg.id⟩], s.nextTagId⟩ := by
  unfold addTagLinkT
  rw [h]

theorem addTagLinkT_notFound {s : TagDB} {n : String} (bid : Nat)
    (h : findTag s.tags n = none) :
    addTagLinkT s bid n
      = ⟨s.tags ++ [⟨s.nextTagId, n⟩], s.links ++ [⟨bid, s.nextTagId⟩], s.nextTagId + 1⟩ := by
  unfold addTagLinkT
  rw [h]

theorem clearTagsT_eq (s : TagDB) (bid : Nat) :
    clearTagsT s bid = ⟨s.tags, s.links.filter (fun l => l.bookmark_id ≠ bid), s.nextTagId⟩ := rfl

/-- Re-running the lookup-or-create loop from the post-state with the
pre-state's links reproduces the post-state exactly: every lookup now
finds the tag the first pass used, with the same id. -/
theorem addTagsT_restart (bid : Nat) (ns : List String) :
    ∀ t : TagDB,
      addTagsT ⟨(addTagsT t bid ns).tags, t.links, (addTagsT t bid ns).nextTagId⟩ bid ns
        = addTagsT t bid ns := by
  induction ns with
  | nil => intro t; rfl
  | cons n ns ih =>
    intro t
    obtain ⟨ex, hex, -⟩ := addTagsT_tags_ext bid ns (addTagLinkT t bid n)
    show addTagsT (addTagLinkT ⟨(addTagsT (addTagLinkT t bid n) bid ns).tags, t.links,
          (addTagsT (addTagLinkT t bid n) bid ns).nextTagId⟩ bid n) bid ns
      = addTagsT (addTagLinkT t bid n) bid ns
    cases hf : findTag t.tags n with
    | some tg =>
      have htags : (addTagLinkT t bid n).tags = t.tags := by
        rw [addTagLinkT_found bid hf]
      have hlinks : (addTagLinkT t bid n).links = t.links ++ [⟨bid, tg.id⟩] := by
        rw [addTagLinkT_found bid hf]
      have hfind : findTag ((⟨(addTagsT (addTagLinkT t bid n) bid ns).tags, t.links,
          (addTagsT (addTagLinkT t bid n) bid ns).nextTagId⟩ : TagDB)).tags n = some tg := by
        show findTag (addTagsT (addTagLinkT t bid n) bid ns).tags n = some tg
        rw [hex, htags]
        exact findTag_append_of_some hf
      rw [addTagLinkT_found bid hfind]
      have : ((⟨(addTagsT (addTagLinkT t bid n) bid ns).tags,
            t.links ++ [⟨bid, tg.id⟩],
            (addTagsT (addTagLinkT t bid n) bid ns).nextTagId⟩ : TagDB))
          = ⟨(addTagsT (addTagLinkT t bid n) bid ns).tags, (addTagLinkT t bid n).links,
            (addTagsT (addTagLinkT t bid n) bid ns).nextTagId⟩ := by
        rw [hlinks]
      rw [this]
      exact ih (addTagLinkT t bid n)
    | none =>
      have htags : (addTagLinkT t bid n).tags = t.tags ++ [⟨t.nextTagId, n⟩] := by
        rw [addTagLinkT_notFound bid hf]
      have hlinks : (addTagLinkT t bid n).links = t.links ++ [⟨bid, t.nextTagId⟩] := by
        rw [addTagLinkT_notFound bid hf]
      have hfind : findTag ((⟨(addTagsT (addTagLinkT t bid n) bid ns).tags, t.links,
          (addTagsT (addTagLinkT t bid n) bid ns).nextTagId⟩ : TagDB)).tags n
          = some ⟨t.nextTagId, n⟩ := by
        show findTag (addTagsT (addTagLinkT t bid n) bid ns).tags n = some ⟨t.nextTagId, n⟩
        rw [hex, htags, List.append_assoc]
        refine (findTag_append_of_none hf).trans ?_
        unfold findTag
        simp [List.find?_cons]
      rw [addTagLinkT_found bid hfind]
      have : ((⟨(addTagsT (addTagLinkT t bid n) bid ns).tags,
            t.links ++ [⟨bid, (⟨t.nextTagId, n⟩ : TagRow).id⟩],
            (addTagsT (addTagLinkT t bid n) bid ns).nextTagId⟩ : TagDB))
          = ⟨(addTagsT (addTagLinkT t bid n) bid ns).tags, (addTagLinkT t bid n).links,
            (addTagsT (addTagLinkT t bid n) bid ns).nextTagId⟩ := by
        rw [hlinks]
      rw [this]
      exact ih (addTagLinkT t bid n)

/-- Full reconciliation is idempotent: rerunning it leaves the tag
table, the link table and the id counter unchanged. -/
theorem reconcileTagsT_idem (t : TagDB) (bid : Nat) (ns : List String) :
    reconcileTagsT (reconcileTagsT t bid ns) bid ns = reconcileTagsT t bid ns := by
  unfold reconcileTagsT
  obtain ⟨A, hA, hprops⟩ := addTagsT_links_ext bid ns (clearTagsT t bid)
  have hclear : clearTagsT (addTagsT (clearTagsT t bid) bid ns) bid
      = ⟨(addTagsT (clearTagsT t bid) bid ns).tags, (clearTagsT t bid).links,
          (addTagsT (clearTagsT t bid) bid ns).nextTagId⟩ := by
    rw [clearTagsT_eq]
    have hcomp : (addTagsT (clearTagsT t bid) bid ns).links.filter
        (fun l => l.bookmark_id ≠ bid) = (clearTagsT t bid).links := by
      rw [hA, List.filter_append]
      have hAnil : A.filter (fun l => decide ¬l.bookmark_id = bid) = [] := by
        rw [List.filter_eq_nil_iff]
        intro l hl
        have := (hprops l hl).1
        simp [this]
      rw [hAnil, List.append_nil, clearTagsT_eq]
      show (t.links.filter _).filter _ = t.links.filter _
      rw [List.filter_filter]
      apply List.filter_congr
      intro x _
      simp
    rw [hcomp]
  rw [hclear]
  exact addTagsT_restart bid ns (clearTagsT t bid)

/-! ## Normal forms of one job execution -/

/-- When the bookmark is found, AI is enabled and all five stages
succeed, the job equals: one `PROCESSING` commit, the stage calls, and
one final commit of the row rewritten by `applyOk` together with the
reconciled tag state. -/
theorem process_success_eq (db : DB) (bid : Nat) (st : StageOutputs) (b : BookmarkRow)
    (ti su : String) (ns : List String) (calls : List Event)
    (h1 : lookupBookmark db bid = some b) (h2 : b.ai_enabled = true)
    (hr : runPipeline st b.url = (.ok (ti, su, ns), calls)) :
    process_bookmark_content db bid st =
      ((updateRow db bid (applyOk ti su)).withTagdb (reconcileTagsT db.tagdb bid ns),
       .commit (updateRow db bid setProcessing)
         :: calls
         ++ [.commit ((updateRow db bid (applyOk ti su)).withTagdb
              (reconcileTagsT db.tagdb bid ns))]) := by
  have hcollapse := updateRow_comp3 db bid
    (fun x => { x with ai_status := .processing })
    (fun x => { x with title := ti, description := some su })
    (fun x => { x with ai_status := .completed, ai_error := none })
    (applyOk ti su) (fun _ => rfl) (fun _ => rfl) (fun _ => rfl)
  unfold process_bookmark_content
  rw [h1]
  simp only [h2, Bool.true_eq_false, if_false, hr]
  show ((updateRow (reconcileTags (updateRow (updateRow db bid _) bid _) bid ns) bid _), _) = _
  unfold reconcileTags
  rw [updateRow_withTagdb]
  rw [show ((updateRow (updateRow db bid (fun x => { x with ai_status := .processing }))
      bid (fun x => { x with title := ti, description := some su })).tagdb) = db.tagdb from rfl]
  rw [hcollapse]
  rfl

/-- When the bookmark is found, AI is enabled and some stage raises
with message `e`, the job equals: one `PROCESSING` commit, the calls
made so far, and one final commit of the row rewritten by `applyErr e`;
the tag tables are untouched. -/
theorem process_failure_eq (db : DB) (bid : Nat) (st : StageOutputs) (b : BookmarkRow)
    (e : String) (calls : List Event)
    (h1 : lookupBookmark db bid = some b) (h2 : b.ai_enabled = true)
    (hr : runPipeline st b.url = (.error e, calls)) :
    process_bookmark_content db bid st =
      (updateRow db bid (applyErr e),
       .commit (updateRow db bid setProcessing)
         :: calls ++ [.commit (updateRow db bid (applyErr e))]) := by
  have hcollapse := updateRow_comp2 db bid
    (fun x => { x with ai_status := .processing })
    (fun x =>
      { x with ai_status := .failed, ai_error := some (pyTake e 499),
               description := some failedDescription })
    (applyErr e) (fun _ => rfl) (fun _ => rfl)
  unfold process_bookmark_content
  rw [h1]
  simp only [h2, Bool.true_eq_false, if_false, hr]
  rw [hcollapse]
  rfl

/-- When the bookmark is missing, the job is an exact no-op with an
empty trace. -/
theorem process_missing_eq (db : DB) (bid : Nat) (st : StageOutputs)
    (h1 : lookupBookmark db bid = none) :
    process_bookmark_content db bid st = (db, []) := by
  unfold process_bookmark_content
  rw [h1]

/-- When the bookmark exists but AI is disabled, the job is an exact
no-op with an empty trace. -/
theorem process_disabled_eq (db : DB) (bid : Nat) (st : StageOutputs) (b : BookmarkRow)
    (h1 : lookupBookmark db bid = some b) (h2 : b.ai_enabled = false) :
    process_bookmark_content db bid st = (db, []) := by
  unfold process_bookmark_content
  rw [h1]
  simp only [h2, if_true]

/-- Every event produced by the stage sequence is an outbound call,
never a commit: filtering the stage calls for `PROCESSING` commits
leaves nothing. -/
theorem runPipeline_filter_commits (bid : Nat) (st : StageOutputs) (url : String) :
    (runPipeline st url).2.filter (commitsProcessing bid) = [] := by
  unfold runPipeline
  repeat' split
  all_goals rfl

/-! ## Claim theorems -/

/-- C5: a job whose bookmark id does not resolve to an existing
bookmark, or resolves to one with `ai_enabled = false`, returns without
raising and performs no writes: the store is returned unchanged and
the trace holds no commit at all. -/
theorem c5_job_is_noop_when_missing_or_disabled (db : DB) (bid : Nat) (st : StageOutputs) :
    (lookupBookmark db bid = none → process_bookmark_content db bid st = (db, [])) ∧
    (∀ b, lookupBookmark db bid = some b → b.ai_enabled = false →
      process_bookmark_content db bid st = (db, [])) :=
  ⟨fun h1 => process_missing_eq db bid st h1,
   fun b h1 h2 => process_disabled_eq db bid st b h1 h2⟩

/-- Witness for C5 at concrete inputs: id 99 is absent from `dbC`, and
the only bookmark of `dbSkippedC` has AI disabled. -/
theorem c5_witness :
    process_bookmark_content dbC 99 stOkC = (dbC, []) ∧
    process_bookmark_content dbSkippedC 1 stOkC = (dbSkippedC, []) :=
  ⟨(c5_job_is_noop_when_missing_or_disabled dbC 99 stOkC).1 (by decide),
   (c5_job_is_noop_when_missing_or_disabled dbSkippedC 1 stOkC).2
     ({ bkC with ai_enabled := false, ai_status := .skipped }) (by decide) (by decide)⟩

/-- C2: for a job on a bookmark that is found with `ai_enabled = true`,
the very first event of the job is a commit of the store in which this
bookmark's status is `PROCESSING`; over the whole trace exactly one
commit shows `PROCESSING` for it, and nothing after the head commit
does — so the `PROCESSING` write is persisted exactly once, before any
stage call, whatever the pipeline outcome. -/
theorem c2_processing_persisted_first (db : DB) (bid : Nat) (st : StageOutputs)
    (b : BookmarkRow) (h1 : lookupBookmark db bid = some b) (h2 : b.ai_enabled = true) :
    ∃ rest, (process_bookmark_content db bid st).2
        = Event.commit (updateRow db bid setProcessing) :: rest
      ∧ lookupBookmark (updateRow db bid setProcessing) bid = some (setProcessing b)
      ∧ (setProcessing b).ai_status = .processing
      ∧ ((process_bookmark_content db bid st).2.filter (commitsProcessing bid)).length = 1
      ∧ ∀ ev ∈ rest, commitsProcessing bid ev = false := by
  have hlk : lookupBookmark (updateRow db bid setProcessing) bid = some (setProcessing b) := by
    rw [lookup_updateRow db bid setProcessing (fun _ => rfl), h1]
    rfl
  have hHead : commitsProcessing bid (.commit (updateRow db bid setProcessing)) = true := by
    simp [commitsProcessing, hlk, setProcessing]
  have hCallsFilter := runPipeline_filter_commits bid st b.url
  rcases hr : runPipeline st b.url with ⟨res, calls⟩
  rw [hr] at hCallsFilter
  have hcallsFalse : ∀ ev ∈ calls, commitsProcessing bid ev = false := by
    intro ev hev
    have := List.filter_eq_nil_iff.1 hCallsFilter ev hev
    simpa using this
  cases res with
  | ok v =>
    obtain ⟨ti, su, ns⟩ := v
    rw [process_success_eq db bid st b ti su ns calls h1 h2 hr]
    have hLast : commitsProcessing bid
        (.commit ((updateRow db bid (applyOk ti su)).withTagdb
          (reconcileTagsT db.tagdb bid ns))) = false := by
      have : lookupBookmark ((updateRow db bid (applyOk ti su)).withTagdb
          (reconcileTagsT db.tagdb bid ns)) bid = some (applyOk ti su b) := by
        rw [lookup_withTagdb, lookup_updateRow db bid (applyOk ti su) (fun _ => rfl), h1]
        rfl
      simp [commitsProcessing, this, applyOk]
    refine ⟨_, rfl, hlk, rfl, ?_, ?_⟩
    · simp only [List.filter_cons, hHead, if_true, List.filter_append, hCallsFilter,
        List.filter_cons, hLast, Bool.false_eq_true, if_false, List.filter_nil]
      rfl
    · intro ev hev
      rcases List.mem_append.1 hev with h | h
      · exact hcallsFalse ev h
      · rcases List.mem_singleton.1 h with rfl
        exact hLast
  | error e =>
    rw [process_failure_eq db bid st b e calls h1 h2 hr]
    have hLast : commitsProcessing bid (.commit (updateRow db bid (applyErr e))) = false := by
      have : lookupBookmark (updateRow db bid (applyErr e)) bid = some (applyErr e b) := by
        rw [lookup_updateRow db bid (applyErr e) (fun _ => rfl), h1]
        rfl
      simp [commitsProcessing, this, applyErr]
    refine ⟨_, rfl, hlk, rfl, ?_, ?_⟩
    · simp only [List.filter_cons, hHead, if_true, List.filter_append, hCallsFilter,
        List.filter_cons, hLast, Bool.false_eq_true, if_false, List.filter_nil]
      rfl
    · intro ev hev
      rcases List.mem_append.1 hev with h | h
      · exact hcallsFalse ev h
      · rcases List.mem_singleton.1 h with rfl
        exact hLast

/-- Witness for C2 at concrete inputs: `dbC` holds `bkC` with AI
enabled. -/
theorem c2_witness :
    ∃ rest, (process_bookmark_content dbC 1 stOkC).2
        = Event.commit (updateRow dbC 1 setProcessing) :: rest
      ∧ lookupBookmark (updateRow dbC 1 setProcessing) 1 = some (setProcessing bkC)
      ∧ (setProcessing bkC).ai_status = .processing
      ∧ ((process_bookmark_content dbC 1 stOkC).2.filter (commitsProcessing 1)).length = 1
      ∧ ∀ ev ∈ rest, commitsProcessing 1 ev = false :=
  c2_processing_persisted_first dbC 1 stOkC bkC (by decide) (by decide)

/-- C3 counterexample: a stage can raise an exception whose message is
empty (`str(e) = ""`), and then the job stores `ai_error = some ""` —
an empty string — while the claim asserts `ai_error` is always
non-empty.  Status, placeholder description and unchanged title are as
expected. -/
theorem c3_counterexample :
    lookupBookmark (process_bookmark_content dbC 1 stFailEmptyC).1 1
      = some { bkC with ai_status := .failed, ai_error := some "",
                        description := some failedDescription }
    ∧ ("" : String).length = 0 := by
  constructor
  · decide
  · rfl

/-- C3 (amended): when any stage raises with message `e`, the job ends
with `ai_status = FAILED`, `ai_error` equal to the first 499 characters
of `e` (hence at most 500 characters, and non-empty whenever `e` is
non-empty), the fixed placeholder description, an unchanged title, and
untouched tag and association tables — no partial stage output is
committed. -/
theorem c3_failure_isolated (db : DB) (bid : Nat) (st : StageOutputs) (b : BookmarkRow)
    (e : String) (calls : List Event)
    (h1 : lookupBookmark db bid = some b) (h2 : b.ai_enabled = true)
    (hr : runPipeline st b.url = (.error e, calls)) :
    lookupBookmark (process_bookmark_content db bid st).1 bid = some (applyErr e b)
    ∧ (applyErr e b).ai_status = .failed
    ∧ (applyErr e b).ai_error = some (pyTake e 499)
    ∧ (pyTake e 499).length ≤ 500
    ∧ (e ≠ "" → pyTake e 499 ≠ "")
    ∧ (applyErr e b).description = some failedDescription
    ∧ (applyErr e b).title = b.title
    ∧ (process_bookmark_content db bid st).1.tags = db.tags
    ∧ (process_bookmark_content db bid st).1.links = db.links := by
  rw [process_failure_eq db bid st b e calls h1 h2 hr]
  refine ⟨?_, rfl, rfl, ?_, ?_, rfl, rfl, rfl, rfl⟩
  · show lookupBookmark (updateRow db bid (applyErr e)) bid = some (applyErr e b)
    rw [lookup_updateRow db bid (applyErr e) (fun _ => rfl), h1]
    rfl
  · show (e.data.take 499).length ≤ 500
    rw [List.length_take]
    omega
  · intro hne hcon
    have h0 : e.data.take 499 = [] := congrArg String.data hcon
    rcases List.take_eq_nil_iff.1 h0 with h | h
    · exact absurd h (by omega)
    · apply hne
      cases e with
      | mk d =>
        have : d = [] := h
        rw [this]

/-- Witness for C3 at concrete inputs: on `dbC` the fetch stage raises
with message `"boom"`. -/
theorem c3_witness :
    lookupBookmark (process_bookmark_content dbC 1 stFailC).1 1 = some (applyErr "boom" bkC)
    ∧ (applyErr "boom" bkC).ai_status = .failed
    ∧ (applyErr "boom" bkC).ai_error = some (pyTake "boom" 499)
    ∧ (pyTake "boom" 499).length ≤ 500
    ∧ ("boom" ≠ "" → pyTake "boom" 499 ≠ "")
    ∧ (applyErr "boom" bkC).description = some failedDescription
    ∧ (applyErr "boom" bkC).title = bkC.title
    ∧ (process_bookmark_content dbC 1 stFailC).1.tags = dbC.tags
    ∧ (process_bookmark_content dbC 1 stFailC).1.links = dbC.links :=
  c3_failure_isolated dbC 1 stFailC bkC "boom" [.extCall "fetch"]
    (by decide) (by decide) rfl

/-- C6: the enrichment job is idempotent.  Running it twice on the
same bookmark id with the same stage outputs yields exactly the same
store as running it once: field writes overwrite, the tag loop finds
on the second run every tag it created on the first, and the cleared
associations are recreated identically — no accumulation. -/
theorem c6_job_idempotent (db : DB) (bid : Nat) (st : StageOutputs) :
    (process_bookmark_content (process_bookmark_content db bid st).1 bid st).1
      = (process_bookmark_content db bid st).1 := by
  cases h1 : lookupBookmark db bid with
  | none =>
    have h := process_missing_eq db bid st h1
    rw [h]
    show (process_bookmark_content db bid st).1 = db
    rw [h]
  | some b =>
    cases hen : b.ai_enabled with
    | false =>
      have h := process_disabled_eq db bid st b h1 hen
      rw [h]
      show (process_bookmark_content db bid st).1 = db
      rw [h]
    | true =>
      rcases hr : runPipeline st b.url with ⟨res, calls⟩
      cases res with
      | error e =>
        have hA := process_failure_eq db bid st b e calls h1 hen hr
        rw [hA]
        show (process_bookmark_content (updateRow db bid (applyErr e)) bid st).1
          = updateRow db bid (applyErr e)
        have h1' : lookupBookmark (updateRow db bid (applyErr e)) bid
            = some (applyErr e b) := by
          rw [lookup_updateRow db bid (applyErr e) (fun _ => rfl), h1]
          rfl
        have hr' : runPipeline st (applyErr e b).url = (.error e, calls) := hr
        have hB := process_failure_eq (updateRow db bid (applyErr e)) bid st
          (applyErr e b) e calls h1' hen hr'
        rw [hB]
        show updateRow (updateRow db bid (applyErr e)) bid (applyErr e)
          = updateRow db bid (applyErr e)
        exact updateRow_comp2 db bid (applyErr e) (applyErr e) (applyErr e)
          (fun _ => rfl) (fun _ => rfl)
      | ok v =>
        obtain ⟨ti, su, ns⟩ := v
        have hA := process_success_eq db bid st b ti su ns calls h1 hen hr
        rw [hA]
        show (process_bookmark_content ((updateRow db bid (applyOk ti su)).withTagdb
              (reconcileTagsT db.tagdb bid ns)) bid st).1
          = (updateRow db bid (applyOk ti su)).withTagdb (reconcileTagsT db.tagdb bid ns)
        have h1' : lookupBookmark ((updateRow db bid (applyOk ti su)).withTagdb
            (reconcileTagsT db.tagdb bid ns)) bid = some (applyOk ti su b) := by
          rw [lookup_withTagdb, lookup_updateRow db bid (applyOk ti su) (fun _ => rfl), h1]
          rfl
        have hr' : runPipeline st (applyOk ti su b).url = (.ok (ti, su, ns), calls) := hr
        have hB := process_success_eq ((updateRow db bid (applyOk ti su)).withTagdb
            (reconcileTagsT db.tagdb bid ns)) bid st (applyOk ti su b) ti su ns calls
            h1' hen hr'
        rw [hB]
        show (updateRow ((updateRow db bid (applyOk ti su)).withTagdb
              (reconcileTagsT db.tagdb bid ns)) bid (applyOk ti su)).withTagdb
            (reconcileTagsT ((updateRow db bid (applyOk ti su)).withTagdb
              (reconcileTagsT db.tagdb bid ns)).tagdb bid ns)
          = (updateRow db bid (applyOk ti su)).withTagdb (reconcileTagsT db.tagdb bid ns)
        rw [tagdb_withTagdb, reconcileTagsT_idem, updateRow_withTagdb, withTagdb_withTagdb]
        rw [updateRow_comp2 db bid (applyOk ti su) (applyOk ti su) (applyOk ti su)
          (fun _ => rfl) (fun _ => rfl)]

theorem frameEq_refl (b : BookmarkRow) : frameEq b b :=
  ⟨rfl, rfl, rfl, rfl, rfl, rfl, rfl, rfl⟩

theorem forall2_frame_same (l : List BookmarkRow) : List.Forall₂ frameEq l l :=
  List.forall₂_same.2 (fun b _ => frameEq_refl b)

theorem forall2_frame_updateRow (l : List BookmarkRow) (bid : Nat)
    (f : BookmarkRow → BookmarkRow) (hf : ∀ b, frameEq b (f b)) :
    List.Forall₂ frameEq l (l.map (fun b => if b.id == bid then f b else b)) := by
  induction l with
  | nil => simp
  | cons a t ih =>
    simp only [List.map_cons]
    refine List.Forall₂.cons ?_ ih
    by_cases ha : a.id = bid
    · simpa [ha] using hf a
    · have hb : (a.id == bid) = false := by simpa using ha
      simp [hb, frameEq_refl]

/-- C10: whatever the job does (no-op, success or failure), every
bookmark row of the final store stands in `frameEq` to its pre-state
row: id, user id, url, favorite flag, view counter, `ai_enabled`,
`created_at` and `updated_at` (not bumped, unlike CRUD updates) are all
unchanged, for the processed bookmark and for every other one — only
`title`, `description`, `ai_status`, `ai_error` (and the tag and
association tables) can change. -/
theorem c10_job_frame (db : DB) (bid : Nat) (st : StageOutputs) :
    List.Forall₂ frameEq db.bookmarks ((process_bookmark_content db bid st).1).bookmarks := by
  cases h1 : lookupBookmark db bid with
  | none =>
    rw [process_missing_eq db bid st h1]
    exact forall2_frame_same db.bookmarks
  | some b =>
    cases hen : b.ai_enabled with
    | false =>
      rw [process_disabled_eq db bid st b h1 hen]
      exact forall2_frame_same db.bookmarks
    | true =>
      rcases hr : runPipeline st b.url with ⟨res, calls⟩
      cases res with
      | error e =>
        rw [process_failure_eq db bid st b e calls h1 hen hr]
        show List.Forall₂ frameEq db.bookmarks
          (db.bookmarks.map (fun x => if x.id == bid then applyErr e x else x))
        exact forall2_frame_updateRow db.bookmarks bid (applyErr e)
          (fun x => ⟨rfl, rfl, rfl, rfl, rfl, rfl, rfl, rfl⟩)
      | ok v =>
        obtain ⟨ti, su, ns⟩ := v
        rw [process_success_eq db bid st b ti su ns calls h1 hen hr]
        show List.Forall₂ frameEq db.bookmarks
          (db.bookmarks.map (fun x => if x.id == bid then applyOk ti su x else x))
        exact forall2_frame_updateRow db.bookmarks bid (applyOk ti su)
          (fun x => ⟨rfl, rfl, rfl, rfl, rfl, rfl, rfl, rfl⟩)

/-! ## Lemmas about the CRUD writers -/

theorem foldl_manualAddTag_bookmarks (ns : List String) (bid : Nat) :
    ∀ d : DB, (ns.foldl (fun d n => manualAddTag d bid n) d).bookmarks = d.bookmarks := by
  induction ns with
  | nil => intro d; rfl
  | cons n rest ih => intro d; exact ih (manualAddTag d bid n)

theorem create_bookmark_ok_fst (db : DB) (uid nid now : Nat) (inp : BookmarkCreate)
    (q : Bool) (h : ¬(inp.ai_enabled = true ∧ q = false)) :
    (create_bookmark db uid nid now inp q).1.bookmarks
      = db.bookmarks ++ [newBookmarkRow uid nid now inp] := by
  simp only [create_bookmark]
  rw [if_neg h]
  by_cases hc : inp.ai_enabled = false ∧ inp.tags ≠ []
  · rw [if_pos hc]
    exact foldl_manualAddTag_bookmarks _ _ _
  · rw [if_neg hc]

theorem create_bookmark_ok_snd (db : DB) (uid nid now : Nat) (inp : BookmarkCreate)
    (q : Bool) (h : ¬(inp.ai_enabled = true ∧ q = false)) :
    (create_bookmark db uid nid now inp q).2 = newBookmarkRow uid nid now inp := by
  simp only [create_bookmark]
  rw [if_neg h]

theorem create_bookmark_fail_fst (db : DB) (uid nid now : Nat) (inp : BookmarkCreate)
    (q : Bool) (h : inp.ai_enabled = true ∧ q = false) :
    (create_bookmark db uid nid now inp q).1.bookmarks
      = (db.bookmarks ++ [newBookmarkRow uid nid now inp]).map
          (fun b => if b.id == nid then
            { b with ai_status := .failed,
                     ai_error := some "Failed to queue processing task." } else b) := by
  simp only [create_bookmark]
  rw [if_pos h]
  have hc : ¬(inp.ai_enabled = false ∧ inp.tags ≠ []) := by
    intro hcc
    rw [h.1] at hcc
    exact absurd hcc.1 (by simp)
  rw [if_neg hc]
  rfl

theorem create_bookmark_fail_snd (db : DB) (uid nid now : Nat) (inp : BookmarkCreate)
    (q : Bool) (h : inp.ai_enabled = true ∧ q = false) :
    (create_bookmark db uid nid now inp q).2
      = { newBookmarkRow uid nid now inp with
            ai_status := .failed,
            ai_error := some "Failed to queue processing task." } := by
  simp only [create_bookmark]
  rw [if_pos h]

theorem forall2_updateRow_of (R : BookmarkRow → BookmarkRow → Prop)
    (l : List BookmarkRow) (bid : Nat) (f : BookmarkRow → BookmarkRow)
    (hrefl : ∀ b, R b b) (hf : ∀ b, R b (f b)) :
    List.Forall₂ R l (l.map (fun b => if b.id == bid then f b else b)) := by
  induction l with
  | nil => simp
  | cons a t ih =>
    simp only [List.map_cons]
    refine List.Forall₂.cons ?_ ih
    by_cases ha : a.id = bid
    · simpa [ha] using hf a
    · have hb : (a.id == bid) = false := by simpa using ha
      simp [hb, hrefl]

theorem update_bookmark_preserves_status (db : DB) (bid : Nat)
    (upd : BookmarkUpdate) (now : Nat) :
    List.Forall₂
      (fun b b' => b'.id = b.id ∧ b'.ai_status = b.ai_status ∧ b'.ai_error = b.ai_error)
      db.bookmarks (update_bookmark db bid upd now).bookmarks := by
  unfold update_bookmark
  cases hlk : lookupBookmark db bid with
  | none => exact List.forall₂_same.2 (fun b _ => ⟨rfl, rfl, rfl⟩)
  | some b =>
    cases htags : upd.tags with
    | none =>
      show List.Forall₂ _ db.bookmarks (db.bookmarks.map _)
      exact forall2_updateRow_of _ db.bookmarks bid _
        (fun b => ⟨rfl, rfl, rfl⟩) (fun b => ⟨rfl, rfl, rfl⟩)
    | some newTags =>
      have hbm : (newTags.foldl (fun d n => manualAddTag d bid n)
          (clearTags db bid)).bookmarks = db.bookmarks :=
        foldl_manualAddTag_bookmarks newTags bid (clearTags db bid)
      show List.Forall₂ _ db.bookmarks
        ((newTags.foldl (fun d n => manualAddTag d bid n) (clearTags db bid)).bookmarks.map _)
      rw [hbm]
      exact forall2_updateRow_of _ db.bookmarks bid _
        (fun b => ⟨rfl, rfl, rfl⟩) (fun b => ⟨rfl, rfl, rfl⟩)

theorem delete_bookmark_subset (db : DB) (bid : Nat) :
    ∀ b' ∈ (delete_bookmark db bid).bookmarks, b' ∈ db.bookmarks := by
  unfold delete_bookmark
  cases hlk : lookupBookmark db bid with
  | none => intro b' hb'; exact hb'
  | some b => intro b' hb'; exact List.mem_of_mem_filter hb'

/-- C1 counterexample: with AI enabled and a failing enqueue, the
creation route itself writes `ai_status = FAILED` — a writer other
than the Orchestrator performs a transition to `FAILED`, and the
stored bookmark does not start in `PENDING`. -/
theorem c1_counterexample :
    (create_bookmark dbC 7 2 9 inpAiC false).2.ai_status = .failed
    ∧ lookupBookmark (create_bookmark dbC 7 2 9 inpAiC false).1 2
        = some { newBookmarkRow 7 2 9 inpAiC with
                   ai_status := .failed,
                   ai_error := some "Failed to queue processing task." }
    ∧ ProcessingStatus.failed ≠ ProcessingStatus.pending := by
  refine ⟨by decide, by decide, by decide⟩

/-- C1 (amended): `ai_status` ranges over exactly the five enumeration
values; a bookmark created with `ai_enabled = false` has status
`SKIPPED` and the Orchestrator never processes it; one created with
`ai_enabled = true` and a successful enqueue starts in `PENDING`;
creation never stores `PROCESSING` or `COMPLETED` (though it stores
`FAILED` when the enqueue fails); the update route never changes any
bookmark's `ai_status` or `ai_error`; deletion only removes rows — so
`PROCESSING` and `COMPLETED` are written by the Orchestrator alone,
while `FAILED` is written by the Orchestrator or by the creation
route's enqueue-failure fallback. -/
theorem c1_status_lifecycle :
    (∀ s : ProcessingStatus,
        s = .pending ∨ s = .processing ∨ s = .completed ∨ s = .failed ∨ s = .skipped)
    ∧ (∀ db uid nid now inp q, inp.ai_enabled = false →
        (create_bookmark db uid nid now inp q).2.ai_status = .skipped)
    ∧ (∀ db uid nid now inp q st, inp.ai_enabled = false →
        (∀ b ∈ db.bookmarks, b.id ≠ nid) →
        process_bookmark_content (create_bookmark db uid nid now inp q).1 nid st
          = ((create_bookmark db uid nid now inp q).1, []))
    ∧ (∀ db uid nid now inp, inp.ai_enabled = true →
        (create_bookmark db uid nid now inp true).2.ai_status = .pending)
    ∧ (∀ db uid nid now inp q, ∀ b' ∈ (create_bookmark db uid nid now inp q).1.bookmarks,
        b' ∈ db.bookmarks ∨ (b'.ai_status ≠ .processing ∧ b'.ai_status ≠ .completed))
    ∧ (∀ db bid upd now, List.Forall₂
        (fun b b' => b'.id = b.id ∧ b'.ai_status = b.ai_status ∧ b'.ai_error = b.ai_error)
        db.bookmarks (update_bookmark db bid upd now).bookmarks)
    ∧ (∀ db bid, ∀ b' ∈ (delete_bookmark db bid).bookmarks, b' ∈ db.bookmarks) := by
  refine ⟨?_, ?_, ?_, ?_, ?_, ?_, ?_⟩
  · intro s
    cases s <;> simp
  · intro db uid nid now inp q h
    have h' : ¬(inp.ai_enabled = true ∧ q = false) := by
      intro hc
      rw [h] at hc
      exact absurd hc.1 (by simp)
    rw [create_bookmark_ok_snd db uid nid now inp q h']
    simp [newBookmarkRow, h]
  · intro db uid nid now inp q st h hfresh
    have h' : ¬(inp.ai_enabled = true ∧ q = false) := by
      intro hc
      rw [h] at hc
      exact absurd hc.1 (by simp)
    have hbm := create_bookmark_ok_fst db uid nid now inp q h'
    have hlk : lookupBookmark (create_bookmark db uid nid now inp q).1 nid
        = some (newBookmarkRow uid nid now inp) := by
      unfold lookupBookmark
      rw [hbm, List.find?_append]
      have hnone : db.bookmarks.find? (fun b => b.id == nid) = none := by
        apply List.find?_eq_none.2
        intro b hb
        simpa using hfresh b hb
      rw [hnone]
      simp [newBookmarkRow]
    exact process_disabled_eq _ nid st _ hlk h
  · intro db uid nid now inp h
    have h' : ¬(inp.ai_enabled = true ∧ (true : Bool) = false) := by simp
    rw [create_bookmark_ok_snd db uid nid now inp true h']
    simp [newBookmarkRow, h]
  · intro db uid nid now inp q b' hb'
    by_cases hq : inp.ai_enabled = true ∧ q = false
    · rw [create_bookmark_fail_fst db uid nid now inp q hq] at hb'
      rcases List.mem_map.1 hb' with ⟨x, hx, rfl⟩
      by_cases hid : x.id = nid
      · have hcond : (x.id == nid) = true := by simpa using hid
        right
        simp only [hcond, if_true]
        exact ⟨by decide, by decide⟩
      · have hcond : (x.id == nid) = false := by simpa using hid
        simp only [hcond, Bool.false_eq_true, if_false]
        rcases List.mem_append.1 hx with hxx | hxx
        · exact Or.inl hxx
        · rcases List.mem_singleton.1 hxx with rfl
          exact absurd rfl hid
    · rw [create_bookmark_ok_fst db uid nid now inp q hq] at hb'
      rcases List.mem_append.1 hb' with h | h
      · exact Or.inl h
      · rcases List.mem_singleton.1 h with rfl
        right
        cases hA : inp.ai_enabled <;> simp [newBookmarkRow, hA]
  · intro db bid upd now
    exact update_bookmark_preserves_status db bid upd now
  · intro db bid
    exact delete_bookmark_subset db bid

/-- Witness for C1 at concrete inputs: an AI-disabled creation yields
`SKIPPED` and is skipped by the job; an AI-enabled creation with a
successful enqueue yields `PENDING`. -/
theorem c1_witness :
    (create_bookmark dbC 7 2 9 inpPlainC true).2.ai_status = .skipped
    ∧ (create_bookmark dbC 7 2 9 inpAiC true).2.ai_status = .pending
    ∧ process_bookmark_content (create_bookmark dbC 7 2 9 inpPlainC true).1 2 stOkC
        = ((create_bookmark dbC 7 2 9 inpPlainC true).1, []) := by
  obtain ⟨h1, h2, h3, h4, h5, h6, h7⟩ := c1_status_lifecycle
  exact ⟨h2 dbC 7 2 9 inpPlainC true rfl,
         h4 dbC 7 2 9 inpAiC rfl,
         h3 dbC 7 2 9 inpPlainC true stOkC rfl (by decide)⟩

theorem pairwiseDistinct_dup (l : List BookmarkTagRow) (x : BookmarkTagRow) :
    pairwiseDistinct (l ++ [x, x]) = false := by
  induction l with
  | nil => simp [pairwiseDistinct]
  | cons a rest ih =>
    show (!(rest ++ [x, x]).contains a && pairwiseDistinct (rest ++ [x, x])) = false
    rw [ih, Bool.and_false]

/-- Running the lookup-or-create step twice with the same name stages
one and the same association pair twice: the first step makes the tag
present (found or created), so the second finds that very tag and
appends an identical link row. -/
theorem addTagLinkT_twice_links (t : TagDB) (bid : Nat) (m : String) :
    ∃ p, (addTagLinkT (addTagLinkT t bid m) bid m).links = t.links ++ [p, p] := by
  cases hf : findTag t.tags m with
  | some tg =>
    refine ⟨⟨bid, tg.id⟩, ?_⟩
    rw [addTagLinkT_found bid hf]
    rw [addTagLinkT_found bid
      (show findTag ((⟨t.tags, t.links ++ [⟨bid, tg.id⟩], t.nextTagId⟩ : TagDB)).tags m
        = some tg from hf)]
    simp
  | none =>
    refine ⟨⟨bid, t.nextTagId⟩, ?_⟩
    rw [addTagLinkT_notFound bid hf]
    have hfind2 : findTag ((⟨t.tags ++ [⟨t.nextTagId, m⟩],
        t.links ++ [⟨bid, t.nextTagId⟩], t.nextTagId + 1⟩ : TagDB)).tags m
        = some ⟨t.nextTagId, m⟩ := by
      show findTag (t.tags ++ [⟨t.nextTagId, m⟩]) m = some ⟨t.nextTagId, m⟩
      rw [findTag_append_of_none hf]
      unfold findTag
      simp [List.find?_cons]
    rw [addTagLinkT_found bid hfind2]
    simp

/-- C7 counterexample: the AI path creates a second `Tag` named
`"Python"` although `"python"` already exists — case-variants do not
resolve to the same entity.  And the manual loop over the raw names
`["Python", "python"]` (both survive the source's `set()`, being
distinct strings) stages the same association pair twice; that state
violates the `bookmark_tags` composite primary key, so the source's
commit raises a FlushError/IntegrityError — the duplicate normalized
names are not collapsed into a single stored association. -/
theorem c7_counterexample :
    (reconcileTags dbC 1 ["Python"]).tags = [⟨1, "python"⟩, ⟨2, "Python"⟩]
    ∧ pyLower "Python" = "python"
    ∧ (["Python", "python"].foldl (fun d n => manualAddTag d 2 n) dbC).links
        = [⟨2, 1⟩, ⟨2, 1⟩]
    ∧ pairwiseDistinct [(⟨2, 1⟩ : BookmarkTagRow), ⟨2, 1⟩] = false := by
  refine ⟨by decide, by decide, by decide, by decide⟩

/-- C7 (amended): the manual CRUD path lowercases each name before the
lookup-or-create, so two manual names equal up to letter case resolve
identically (no whitespace trimming is performed); the AI path performs
no normalization — it looks tags up by the exact AI-returned string and,
when that exact string is absent, creates a new tag carrying it
verbatim, even if a case-variant of it exists; and two distinct manual
spellings with equal lowercase stage two inserts of one and the same
association pair, a state the `bookmark_tags` composite primary key
forbids, so the commit raises instead of storing a single collapsed
association. -/
theorem c7_tag_normalization (db : DB) (bid : Nat) (n1 n2 n : String)
    (hcase : pyLower n1 = pyLower n2)
    (habsent : ∀ tg ∈ db.tags, tg.name ≠ n) :
    manualAddTag db bid n1 = manualAddTag db bid n2
    ∧ (addTagLink db bid n).tags = db.tags ++ [⟨db.nextTagId, n⟩]
    ∧ pairwiseDistinct ((manualAddTag (manualAddTag db bid n1) bid n2).links) = false := by
  refine ⟨?_, ?_, ?_⟩
  · unfold manualAddTag
    rw [hcase]
  · have hfind : findTag db.tags n = none := by
      apply List.find?_eq_none.2
      intro tg htg
      simpa using habsent tg htg
    show (db.withTagdb (addTagLinkT db.tagdb bid n)).tags = _
    rw [tags_withTagdb, addTagLinkT_notFound bid hfind]
    rfl
  · have h12 : manualAddTag (manualAddTag db bid n1) bid n2
        = manualAddTag (manualAddTag db bid n1) bid n1 := by
      unfold manualAddTag
      rw [hcase]
    rw [h12]
    obtain ⟨p, hp⟩ := addTagLinkT_twice_links db.tagdb bid (pyLower n1)
    show pairwiseDistinct
      ((addTagLinkT (addTagLinkT db.tagdb bid (pyLower n1)) bid (pyLower n1)).links) = false
    rw [hp]
    exact pairwiseDistinct_dup _ p

/-- Witness for C7 at concrete inputs: `"PyThOn"` and `"python"` agree
after lowercasing, and no tag of `dbC` is named exactly `"Python"`. -/
theorem c7_witness :
    manualAddTag dbC 9 "PyThOn" = manualAddTag dbC 9 "python"
    ∧ (addTagLink dbC 9 "Python").tags = dbC.tags ++ [⟨dbC.nextTagId, "Python"⟩]
    ∧ pairwiseDistinct ((manualAddTag (manualAddTag dbC 9 "PyThOn") 9 "python").links)
        = false :=
  c7_tag_normalization dbC 9 "PyThOn" "python" "Python" (by decide) (by decide)

theorem noRemovedForest_append : ∀ a b : List HtmlNode,
    noRemovedForest (a ++ b) = (noRemovedForest a && noRemovedForest b)
  | [], b => by simp [noRemovedForest]
  | n :: rest, b => by
      show (noRemoved n && noRemovedForest (rest ++ b))
        = ((noRemoved n && noRemovedForest rest) && noRemovedForest b)
      rw [noRemovedForest_append rest b, Bool.and_assoc]

mutual

theorem cleanNode_noRemoved : ∀ n : HtmlNode, noRemovedForest (cleanNode n) = true
  | .text s => by simp [cleanNode, noRemovedForest, noRemoved]
  | .elem tag idAttr classAttr children => by
      by_cases h : removedByCleaner tag = true
      · simp [cleanNode, h, noRemovedForest]
      · have hch := cleanForest_noRemoved children
        simp [cleanNode, h, noRemovedForest, noRemoved, hch]

theorem cleanForest_noRemoved : ∀ l : List HtmlNode, noRemovedForest (cleanForest l) = true
  | [] => by simp [cleanForest, noRemovedForest]
  | n :: rest => by
      have h1 := cleanNode_noRemoved n
      have h2 := cleanForest_noRemoved rest
      show noRemovedForest (cleanNode n ++ cleanForest rest) = true
      rw [noRemovedForest_append, h1, h2]
      rfl

end

/-- C8 counterexample: a `div` whose `class` attribute is `"sidebar"`
is NOT removed by the cleaner — the boilerplate regex is matched
against tag names via `find_all(name=...)`, never against id or class
attributes — while a `footer`-named element is removed. -/
theorem c8_counterexample :
    cleanNode (.elem "div" "" "sidebar" [.text "x"])
      = [.elem "div" "" "sidebar" [.text "x"]]
    ∧ cleanNode (.elem "footer" "" "" [.text "x"]) = [] := by
  have hdiv : removedByCleaner "div" = false := by decide
  have hfoot : removedByCleaner "footer" = true := by decide
  constructor
  · simp [cleanNode, cleanForest, hdiv]
  · simp [cleanNode, hfoot]

/-- C8 (amended): the cleaner removes exactly the elements whose tag
name is one of `script`, `style`, `noscript`, `iframe`, `aside`, or
contains (case-insensitively) one of `footer`, `header`, `navigation`,
`nav`, `sidebar`, `menu`; removal depends only on the tag name — the
`id`/`class` attributes play no role — and the cleaned output contains
no removable-named element at any depth. -/
theorem c8_cleaner_removes_by_tag_name :
    (∀ n : HtmlNode, noRemovedForest (cleanNode n) = true)
    ∧ (∀ tag idAttr classAttr children,
        cleanNode (.elem tag idAttr classAttr children) = []
          ↔ removedByCleaner tag = true) := by
  refine ⟨cleanNode_noRemoved, ?_⟩
  intro tag idAttr classAttr children
  constructor
  · intro h
    by_cases hr : removedByCleaner tag = true
    · exact hr
    · exfalso
      rw [show cleanNode (.elem tag idAttr classAttr children)
          = [.elem tag idAttr classAttr (cleanForest children)] from by
        simp [cleanNode, hr]] at h
      exact List.cons_ne_nil _ _ h
  · intro h
    simp [cleanNode, h]

/-- C9: the claim says tag rows are never deleted when a bookmark is
deleted, but `cascade="all, delete"` on the many-to-many relationship
makes `db.delete(bookmark)` delete the related `Tag` rows too (and,
through the tag's own cascade, even other bookmarks sharing the tag):
deleting bookmark 1 of `dbShared` wipes the `"python"` tag — and
bookmark 2 with it. -/
theorem c9_cascade_deletes_tags :
    dbShared.tags = [⟨1, "python"⟩]
    ∧ (delete_bookmark dbShared 1).tags = []
    ∧ (delete_bookmark dbShared 1).bookmarks = [] := by
  refine ⟨rfl, by decide, by decide⟩

end SmartBookmarks
